import Mathlib

/-!
Verification development for the json-fuse-fs repository: a FUSE filesystem
whose tree and file contents are described by a JSON manifest.

The development shallowly embeds two layers of the source:

* the tree-construction module (src/src/lib.rs): descriptor parsing,
  recursive construction of the `FSEntry` tree from a JSON value, pre-order
  flattening, and the inode map;
* the protocol adapter (src/src/fs.rs) over the `FSNode` tree: the directory
  listing cache and the `lookup`, `getattr`, `read`, `readdir` operations,
  together with the raw backend read (src/src/raw.rs).

Strings are modelled as lists of characters, `u64`/`usize` as `Nat` with
explicit wrapping where the machine width matters, `i64` as `Int`, and the
fallible or panicking paths of the Rust code as explicit result constructors.
-/

namespace JsonFuseFS

/-- Error raised for malformed manifests and descriptors
(src/src/lib.rs, `DescriptorError`). -/
inductive DescriptorError where
  | mk
deriving DecidableEq, Repr

/-- Backend variants producible by the descriptor parser of the
tree-construction module (src/src/lib.rs, `enum FSFileType`): embedded raw
data and a local-file delegate. -/
inductive FSFileType where
  | Raw (data : List Char)
  | Local (file_path : List Char)
deriving DecidableEq, Repr

/-- Model of `serde_json::Value` as consumed by `FSEntry::_new`
(src/src/lib.rs): an object is a list of key/value members in iteration
order, a string is a file descriptor, and `other` stands for every remaining
variant (null, boolean, number, array), all of which hit the catch-all
malformed arm. -/
inductive JsonValue where
  | obj (members : List (List Char × JsonValue))
  | str (s : List Char)
  | other

/-- Filesystem tree of the construction module
(src/src/lib.rs, `enum FSEntry`). -/
inductive FSEntry where
  | File (name : List Char) (file_type : FSFileType)
  | Dir (name : List Char) (entries : List FSEntry)

/-- Index of the first colon, as in `file_descriptor.find(':')`. The Rust
`find` returns a byte index, but since `:` is a one-byte character the byte
position of its first occurrence splits the string exactly where the
character position does. -/
def findColon : List Char → Option Nat
  | [] => none
  | c :: cs => if c = ':' then some 0 else (findColon cs).map (· + 1)

/-- Translation of `FSFileType::parse_file_type` (src/src/lib.rs lines 23-29):
only the prefixes `raw` and `file` are recognized; every other prefix is a
`DescriptorError`. -/
def parse_file_type (type_descriptor pointer : List Char) :
    Except DescriptorError FSFileType :=
  if type_descriptor = "raw".toList then .ok (.Raw pointer)
  else if type_descriptor = "file".toList then .ok (.Local pointer)
  else .error .mk

/-- Translation of `FSEntry::create_file` (src/src/lib.rs lines 81-90):
`split_at` on the first colon, the prefix selects the backend, the remainder
after the colon is the pointer; a descriptor without a colon is a
`DescriptorError`. -/
def create_file (filename file_descriptor : List Char) :
    Except DescriptorError FSEntry :=
  match findColon file_descriptor with
  | none => .error .mk
  | some i =>
    match parse_file_type (file_descriptor.take i) (file_descriptor.drop (i + 1)) with
    | .ok ft => .ok (.File filename ft)
    | .error e => .error e

mutual

/-- Translation of `FSEntry::_new` (src/src/lib.rs lines 71-79): an object
becomes a directory, a string becomes a file, anything else is a
`DescriptorError`. -/
def FSEntry._new (name : List Char) (descriptor : JsonValue) :
    Except DescriptorError FSEntry :=
  match descriptor with
  | .obj m => FSEntry.create_directory name m
  | .str s => create_file name s
  | .other => .error .mk

/-- Translation of `FSEntry::create_directory` (src/src/lib.rs lines 92-99):
children are built in member order and collected; the first error aborts the
whole directory. -/
def FSEntry.create_directory (dir_name : List Char)
    (dir_descriptor : List (List Char × JsonValue)) :
    Except DescriptorError FSEntry :=
  match FSEntry.collectEntries dir_descriptor with
  | .ok es => .ok (.Dir dir_name es)
  | .error e => .error e

/-- The `map(|(k, v)| FSEntry::_new(k, v)).collect::<Result<Vec<_>, _>>()`
step of `create_directory`: sequential and short-circuiting on the first
error. -/
def FSEntry.collectEntries :
    List (List Char × JsonValue) → Except DescriptorError (List FSEntry)
  | [] => .ok []
  | (k, v) :: rest =>
    match FSEntry._new k v with
    | .error e => .error e
    | .ok e =>
      match FSEntry.collectEntries rest with
      | .error e2 => .error e2
      | .ok es => .ok (e :: es)

end

/-- Translation of `FSEntry::new` (src/src/lib.rs lines 67-69): the root node
carries the empty name. -/
def FSEntry.new (descriptor : JsonValue) : Except DescriptorError FSEntry :=
  FSEntry._new [] descriptor

mutual

/-- Translation of `FSEntry::flatten` (src/src/lib.rs lines 115-123):
pre-order, the node itself first, then the flattening of each child in
order. -/
def FSEntry.flatten : FSEntry → List FSEntry
  | .File n t => [.File n t]
  | .Dir n es => .Dir n es :: FSEntry.flattenAll es

/-- The `entries.iter().flat_map(|e| e.flatten())` step of `flatten`. -/
def FSEntry.flattenAll : List FSEntry → List FSEntry
  | [] => []
  | e :: rest => e.flatten ++ FSEntry.flattenAll rest

end

/-- Translation of `FSEntry::generate_inode_map` (src/src/lib.rs lines
125-132): the map that inserts `(i + 1, flattened[i])` for every index `i`
of the flattened pre-order list. The `HashMap` is modelled as the
association list of exactly these insertions; the keys `i + 1` are pairwise
distinct, so `List.lookup` agrees with the `HashMap` lookup. -/
def FSEntry.generate_inode_map (e : FSEntry) : List (Nat × FSEntry) :=
  e.flatten.enum.map (fun p => (p.1 + 1, p.2))

/-- Result of one backend `read` call into a caller-supplied buffer: either
the final buffer contents or a panic (slice index out of range, subtraction
overflow, or a `copy_from_slice` length mismatch). -/
inductive RawReadResult where
  | ok (buffer : List Char)
  | panic
deriving DecidableEq, Repr

/-- Release-mode `usize` subtraction `a - b`: wraps modulo `2 ^ 64`.
Well-defined here because it is only applied with `b < 2 ^ 64`. -/
def usizeSub (a b : Nat) : Nat := ((a + 2 ^ 64) - b) % 2 ^ 64

/-- Rust slice `l[i..j]`: panics (`none`) unless `i ≤ j ≤ l.length`. -/
def sliceRange (l : List Char) (i j : Nat) : Option (List Char) :=
  if i ≤ j ∧ j ≤ l.length then some ((l.drop i).take (j - i)) else none

/-- Rust slice `l[i..]`: panics (`none`) unless `i ≤ l.length`. -/
def sliceFrom (l : List Char) (i : Nat) : Option (List Char) :=
  if i ≤ l.length then some (l.drop i) else none

/-- Rust `copy_from_slice`: panics (`none`) unless source and destination
lengths agree; on success the destination holds exactly the source bytes. -/
def copy_from_slice (dst src : List Char) : Option (List Char) :=
  if src.length = dst.length then some src else none

/-- Translation of `FSFileTypeOps::read` for `RawFSFileType`
(src/src/raw.rs lines 40-48), with the caller buffer passed and returned
explicitly; `off` is `offset as usize`. The `self.data.len() - off`
subtraction is modelled as the release-mode wrapping one; in debug mode it
panics outright whenever `off` exceeds the data length, which yields the
same panic observable through the slicing that follows. -/
def RawFSFileType.read (data : List Char) (off : Nat) (buffer : List Char) :
    RawReadResult :=
  let ls := usizeSub data.length off
  if buffer.length > ls then
    match sliceRange buffer 0 ls, sliceFrom data off with
    | some dst, some src =>
      match copy_from_slice dst src with
      | some written => .ok (written ++ buffer.drop ls)
      | none => .panic
    | _, _ => .panic
  else
    match sliceRange data off buffer.length with
    | some src =>
      match copy_from_slice buffer src with
      | some written => .ok written
      | none => .panic
    | none => .panic

/-- The `fuse::FileType` tags used by the adapter (src/src/fs.rs):
directories and regular files. -/
inductive FileKind where
  | Directory
  | RegularFile
deriving DecidableEq, Repr

/-- The fields of `fuse::FileAttr` that the adapter fills in. The impure
inputs of the Rust code (`SystemTime::now()`, `getuid()`, `getgid()`) are
passed in explicitly by the operations; all timestamp fields of one reply
receive the same clock sample, modelled by the single `time` field. -/
structure FileAttr where
  ino : Nat
  size : Nat
  kind : FileKind
  perm : Nat
  nlink : Nat
  uid : Nat
  gid : Nat
  time : Nat
deriving DecidableEq, Repr

/-- Modelled from the spec: the backend capability (`FSFileTypeOps` trait
object) in the shape the adapter in src/src/fs.rs consumes it. The crate
module that declares this trait for the `FSNode` generation is not under
src/ (only the older generation in src/src/lib.rs, the backend
implementations, and the callers are). Per spec section 4.3 a backend
exposes `attributes` and a fallible `read`; `fs.rs` line 135 consumes
`read(offset)` as returning an optional byte slice, `None` meaning the
backend I/O failed. -/
structure FSFileTypeOpsModel where
  readFn : Int → Option (List Char)
  attrFn : Nat → FileAttr

mutual

/-- The node type served by the adapter (`FSNode`, used throughout
src/src/fs.rs and src/tests/fs_tree_test.rs): a stable inode number, a
name, and a file or directory payload. The weak parent back-reference of
the Rust struct cannot be embedded as a field of an inductive tree; it is
reconstructed by `FSNode.flattenWP` below. -/
inductive FSNode where
  | mk (inode : Nat) (name : List Char) (entry : FSNodeEntry)

/-- Payload of an `FSNode`: a file with its backend, or a directory owning
an ordered list of children. -/
inductive FSNodeEntry where
  | File (file_type : FSFileTypeOpsModel)
  | Dir (entries : List FSNode)

end

/-- Inode projection of `FSNode`. -/
def FSNode.inode : FSNode → Nat
  | .mk i _ _ => i

/-- Name projection of `FSNode`. -/
def FSNode.name : FSNode → List Char
  | .mk _ n _ => n

/-- Entry projection of `FSNode`. -/
def FSNode.entry : FSNode → FSNodeEntry
  | .mk _ _ e => e

mutual

/-- Pre-order flattening of the node tree paired with each visited node
together with the inode its parent back-reference resolves to (`none` for
the root). The `Flatten` trait implementation and the `FSNode::new`
constructor that sets the weak back-references are not under src/ (only
their callers and tests are); the pairing is modelled from the spec
invariant that every non-root node resolves to exactly the node whose
child list contains it, and from the pre-order observed in the `flatten`
test of src/tests/fs_tree_test.rs. -/
def FSNode.flattenWP (parent : Option Nat) (n : FSNode) :
    List (FSNode × Option Nat) :=
  match n with
  | .mk i nm (.File ft) => [(.mk i nm (.File ft), parent)]
  | .mk i nm (.Dir es) => (.mk i nm (.Dir es), parent) :: FSNode.flattenWPList i es

/-- Flattening of a child list, every child carrying the inode of the
directory that owns it. -/
def FSNode.flattenWPList (parentIno : Nat) (es : List FSNode) :
    List (FSNode × Option Nat) :=
  match es with
  | [] => []
  | e :: rest => FSNode.flattenWP (some parentIno) e ++ FSNode.flattenWPList parentIno rest

end

/-- One directory-listing entry `(u64, FileType, OsString)` as stored in the
listing cache (src/src/fs.rs line 16). -/
abbrev DirEntry := Nat × FileKind × List Char

/-- The child part of a listing entry (src/src/fs.rs lines 41-46): inode,
kind tag by payload, and name. -/
def childEntry (c : FSNode) : DirEntry :=
  match c with
  | .mk i nm (.Dir _) => (i, .Directory, nm)
  | .mk i nm (.File _) => (i, .RegularFile, nm)

/-- The optional `..` entry (src/src/fs.rs lines 35-37): present exactly
when the parent weak reference upgrades. -/
def parentEntry : Option Nat → List DirEntry
  | some p => [(p, .Directory, "..".toList)]
  | none => []

/-- Translation of `JsonFS::generate_dir_listing` (src/src/fs.rs lines
26-56): for every directory node of the flattened tree, insert under its
inode the listing made of the `.` self entry, the `..` entry when a parent
exists, and the children in child-list order. The `HashMap` is modelled as
the association list of the insertions in flatten order. -/
def generate_dir_listing (nodes : List (FSNode × Option Nat)) :
    List (Nat × List DirEntry) :=
  nodes.filterMap (fun np =>
    match np with
    | (.mk i _ (.Dir es), parent) =>
      some (i, (i, FileKind.Directory, ".".toList) :: (parentEntry parent ++ es.map childEntry))
    | _ => none)

/-- The adapter state (src/src/fs.rs lines 13-17): the inode index and the
precomputed directory-listing cache, both modelled as association lists.
The `Weak` values of the Rust maps always upgrade while the mount is
alive (the tree root is owned by the same struct), so they are stored as
the nodes themselves. -/
structure JsonFS where
  inode : List (Nat × FSNode)
  dir_listing : List (Nat × List DirEntry)

/-- Construction of the adapter (src/src/fs.rs lines 20-24): the listing
cache is generated from the flattened tree. -/
def JsonFS.new (fs_tree_root : FSNode) (inodeMap : List (Nat × FSNode)) : JsonFS :=
  { inode := inodeMap,
    dir_listing := generate_dir_listing (FSNode.flattenWP none fs_tree_root) }

/-- Synthesized directory attributes (src/src/fs.rs lines 58-75). -/
def generate_dir_attr (now uid gid : Nat) (inode : Nat) : FileAttr :=
  { ino := inode, size := 0, kind := .Directory, perm := 0o755, nlink := 2,
    uid := uid, gid := gid, time := now }

/-- Translation of `JsonFS::get_node_attr` (src/src/fs.rs lines 77-82):
files delegate to the backend, directories get synthesized attributes. -/
def get_node_attr (now uid gid : Nat) (n : FSNode) : FileAttr :=
  match n with
  | .mk i _ (.File f) => f.attrFn i
  | .mk i _ (.Dir _) => generate_dir_attr now uid gid i

/-- Outcome of the `lookup` operation: a `reply.entry` with attributes, a
`reply.error(ENOENT)`, or a panic of the adapter. -/
inductive LookupReply where
  | entry (attr : FileAttr)
  | enoent
  | panic
deriving DecidableEq, Repr

/-- Translation of `Filesystem::lookup` for `JsonFS` (src/src/fs.rs lines
88-100). The parent inode is resolved by `self.inode.get(&parent).unwrap()`:
a parent absent from the index makes the `unwrap` panic before any reply is
sent. The subsequent `upgrade().unwrap()` always succeeds on a live tree.
If the resolved node is a directory, the first child whose name equals the
looked-up name exactly is replied; otherwise the fall-through replies
ENOENT. -/
def JsonFS.lookup (fs : JsonFS) (now uid gid : Nat) (parent : Nat)
    (lookup_name : List Char) : LookupReply :=
  match List.lookup parent fs.inode with
  | none => .panic
  | some node =>
    match node.entry with
    | .Dir entries =>
      match entries.find? (fun e => e.name == lookup_name) with
      | some e => .entry (get_node_attr now uid gid e)
      | none => .enoent
    | .File _ => .enoent

/-- Outcome of the `getattr` operation: a `reply.attr`, a
`reply.error(ENOENT)`, or a panic of the adapter. -/
inductive AttrReply where
  | attr (a : FileAttr)
  | enoent
  | panic
deriving DecidableEq, Repr

/-- Translation of `Filesystem::getattr` for `JsonFS` (src/src/fs.rs lines
111-121). The inode is resolved by `self.inode.get(&ino).unwrap()`: an
identity absent from the index makes the `unwrap` panic before any reply is
sent. The `if let Some(entry) = ...upgrade()` guard only fails for a dead
weak reference, which cannot happen while the tree is alive, so the
`reply.error(ENOENT)` branch of the source is unreachable. -/
def JsonFS.getattr (fs : JsonFS) (now uid gid : Nat) (ino : Nat) : AttrReply :=
  match List.lookup ino fs.inode with
  | none => .panic
  | some node => .attr (get_node_attr now uid gid node)

/-- Outcome of the `read` operation: a `reply.data`, a
`reply.error(ENOENT)`, or a panic of the adapter. -/
inductive ReadReply where
  | data (d : List Char)
  | enoent
  | panic
deriving DecidableEq, Repr

/-- Translation of `Filesystem::read` for `JsonFS` (src/src/fs.rs lines
132-141). An inode absent from the index panics through
`self.inode.get(&ino).unwrap()`. For a file node the backend read is
attempted; a successful read replies its data, and every other case —
including a failed backend read — falls through to `reply.error(ENOENT)`.
There is no other error reply in this operation. -/
def JsonFS.read (fs : JsonFS) (ino : Nat) (offset : Int) : ReadReply :=
  match List.lookup ino fs.inode with
  | none => .panic
  | some node =>
    match node.entry with
    | .File file_type =>
      match file_type.readFn offset with
      | some d => .data d
      | none => .enoent
    | .Dir _ => .enoent

/-- Outcome of the `readdir` operation: a `reply.ok` carrying the entries
that were added to the reply as `(inode, cursor, kind, name)` in emission
order, a `reply.error(ENOENT)`, or a panic of the adapter. -/
inductive ReaddirReply where
  | ok (emitted : List (Nat × Int × FileKind × List Char))
  | enoent
  | panic
deriving DecidableEq, Repr

/-- The `dir_entries.len().try_into::<i64>().unwrap()` step of `readdir`:
panics when the length does not fit in an `i64`. -/
def i64OfUsize (n : Nat) : Option Int :=
  if n < 2 ^ 63 then some (Int.ofNat n) else none

/-- The `offset as usize` cast of `readdir`: an `i64` reinterpreted as a
64-bit unsigned value. -/
def usizeOfI64 (i : Int) : Nat := (i % (2 ^ 64 : Int)).toNat

/-- Translation of `Filesystem::readdir` for `JsonFS` (src/src/fs.rs lines
158-172). An inode without a cached listing replies ENOENT. Otherwise, when
`offset` is below the listing length, the listing is iterated from
`offset as usize` and each entry is passed to `reply.add` with the cursor
`i + 1`, where `i` is the `enumerate()` index that restarts at zero after
the `skip`; iteration stops at the first `add` that reports a full buffer.
The reply buffer is modelled by its remaining capacity `cap`: the first
`cap` entries are accepted. When `offset` is at or beyond the listing
length nothing is emitted and the reply is an empty success. -/
def JsonFS.readdir (fs : JsonFS) (ino : Nat) (offset : Int) (cap : Nat) :
    ReaddirReply :=
  match List.lookup ino fs.dir_listing with
  | none => .enoent
  | some dir_entries =>
    match i64OfUsize dir_entries.length with
    | none => .panic
    | some len =>
      if offset < len then
        .ok ((((dir_entries.drop (usizeOfI64 offset)).take cap).enum).map
          (fun p => (p.2.1, (p.1 : Int) + 1, p.2.2.1, p.2.2.2)))
      else
        .ok []

/-- A three-entry directory listing (entries named ".", "a", "b") as cached
for a small directory. -/
def listing3 : List DirEntry :=
  [(1, .Directory, ".".toList), (2, .RegularFile, "a".toList),
   (3, .RegularFile, "b".toList)]

/-- Adapter fixture whose listing cache holds `listing3` under inode 1. -/
def fsListing : JsonFS :=
  { inode := [], dir_listing := [(1, listing3)] }

/-- Adapter fixture whose identity index holds only inode 1, an empty root
directory. -/
def fsRootOnly : JsonFS :=
  { inode := [(1, FSNode.mk 1 [] (.Dir []))], dir_listing := [] }

/-- A backend whose read always fails, as with an inaccessible local path
or a non-success network response. -/
def failingBackend : FSFileTypeOpsModel :=
  { readFn := fun _ => none,
    attrFn := fun i =>
      { ino := i, size := 0, kind := .RegularFile, perm := 0o644,
        nlink := 1, uid := 0, gid := 0, time := 0 } }

/-- Adapter fixture with one file node (inode 2) whose backend read fails. -/
def fsFailingFile : JsonFS :=
  { inode := [(2, FSNode.mk 2 "f".toList (.File failingBackend))],
    dir_listing := [] }

/-- C1: refutation by execution. On the cached three-entry listing of inode
1, `readdir` with `start_offset = 1` emits the entries at absolute
positions 1 and 2 tagged with cursors 1 and 2 — the relative `enumerate()`
index plus one, not the absolute position plus one — so a follow-up call
that resumes with the last delivered cursor 2 delivers the entry of
absolute position 2 (inode 3) a second time instead of stopping after it. -/
theorem readdir_relative_cursor_bug :
    JsonFS.readdir fsListing 1 1 100 =
      .ok [(2, 1, .RegularFile, "a".toList), (3, 2, .RegularFile, "b".toList)] ∧
    JsonFS.readdir fsListing 1 2 100 =
      .ok [(3, 1, .RegularFile, "b".toList)] :=
  ⟨rfl, rfl⟩

/-- C2: refutation by execution. `getattr` for identity 99, absent from the
identity index of `fsRootOnly`, panics on `self.inode.get(&ino).unwrap()`
instead of completing with the no-such-entry reply. -/
theorem getattr_unknown_identity_panics :
    JsonFS.getattr fsRootOnly 0 0 0 99 = .panic := rfl

/-- C3: refutation by execution. For raw data "abc" (length 3): reading one
byte at offset 1 panics, because the else branch copies from the slice
`data[1..buffer.len()]` = `data[1..1]`, whose length 0 differs from the
buffer length 1 — where the claim promises the single byte "b"; and
reading at offset 4 ≥ 3 panics on the out-of-range slice instead of
returning zero bytes without error. -/
theorem rawRead_panics_in_bounds_and_beyond :
    RawFSFileType.read "abc".toList 1 "x".toList = .panic ∧
    RawFSFileType.read "abc".toList 4 "x".toList = .panic :=
  ⟨rfl, rfl⟩

/-- C4: refutation by execution. `lookup` under a parent identity 77 that is
absent from the identity index panics on
`self.inode.get(&parent).unwrap()` instead of replying the no-such-entry
error. -/
theorem lookup_unknown_parent_panics :
    JsonFS.lookup fsRootOnly 0 0 0 77 "x".toList = .panic := rfl

/-- C6: counterexample. Reading inode 2 of `fsFailingFile`, whose backend
read fails, falls through to `reply.error(ENOENT)` — the very
no-such-entry signal the adapter uses for unknown identities — rather than
a distinct I/O failure reply. -/
theorem read_backend_failure_replies_enoent_example :
    JsonFS.read fsFailingFile 2 0 = .enoent := rfl

/-- C6 (amended): for every adapter state, every identity resolving to a
file node, and every offset at which the backend read fails, the `read`
operation replies the standard no-such-entry error ENOENT; the failure is
not surfaced as a distinct I/O error and is not converted into a data
reply, in particular not into empty data. -/
theorem read_backend_failure_reports_enoent (fs : JsonFS) (ino : Nat)
    (node : FSNode) (ft : FSFileTypeOpsModel) (offset : Int)
    (hres : List.lookup ino fs.inode = some node)
    (hfile : node.entry = .File ft)
    (hfail : ft.readFn offset = none) :
    JsonFS.read fs ino offset = .enoent := by
  rcases node with ⟨i, nm, en⟩
  cases en with
  | Dir es => simp [FSNode.entry] at hfile
  | File ft2 =>
    simp only [FSNode.entry, FSNodeEntry.File.injEq] at hfile
    subst hfile
    simp [JsonFS.read, hres, FSNode.entry, hfail]

/-- C6 witness: the amended statement holds on the concrete failing-backend
fixture. -/
theorem read_backend_failure_reports_enoent_witness :
    JsonFS.read fsFailingFile 2 0 = .enoent :=
  read_backend_failure_reports_enoent fsFailingFile 2
    (FSNode.mk 2 "f".toList (.File failingBackend)) failingBackend 0
    rfl rfl rfl

/-- C8: counterexample. The descriptor "http://host/path" carries the
unrecognized prefix "http" before its first colon, and `create_file`
rejects it with `DescriptorError` instead of attaching an address-based
backend. -/
theorem create_file_http_rejected :
    create_file "f".toList "http://host/path".toList = .error .mk := rfl

/-- Helper: a descriptor with a colon whose prefix is neither recognized
type makes `create_file` fail. -/
lemma create_file_error_of_prefixes (filename s : List Char)
    (i : Nat) (hcolon : findColon s = some i)
    (hraw : s.take i ≠ "raw".toList)
    (hfile : s.take i ≠ "file".toList) :
    create_file filename s = .error .mk := by
  have h1 : parse_file_type (s.take i) (s.drop (i + 1)) = .error .mk := by
    unfold parse_file_type
    rw [if_neg hraw, if_neg hfile]
  simp [create_file, hcolon, h1]

/-- C8 (amended): every file-descriptor string containing a colon whose
prefix before the first colon is neither "raw" nor "file" — HTTP-style
absolute addresses included — makes `create_file` fail with
`DescriptorError`; no address-based backend is ever attached, since
`parse_file_type` recognizes exactly the two prefixes. -/
theorem create_file_unrecognized_prefix_error (filename s : List Char)
    (i : Nat) (hcolon : findColon s = some i)
    (hraw : s.take i ≠ "raw".toList)
    (hfile : s.take i ≠ "file".toList) :
    create_file filename s = .error .mk :=
  create_file_error_of_prefixes filename s i hcolon hraw hfile

/-- C8 witness: the amended statement applied to the HTTP-style descriptor. -/
theorem create_file_unrecognized_prefix_error_witness :
    create_file "g".toList "http://host/path".toList = .error .mk :=
  create_file_unrecognized_prefix_error "g".toList "http://host/path".toList 4
    (by rfl) (by decide) (by decide)

/-- C10: for every directory identity present in the listing cache, a
`readdir` with a negative start offset (any representable `i64` below
zero) succeeds with zero entries: the negative offset passes the bounds
check against the listing length, the cast to `usize` wraps it to at least
`2 ^ 63`, which is not below the listing length, so every entry is skipped
and the reply is an empty success. -/
theorem readdir_negative_offset_empty (fs : JsonFS) (ino : Nat)
    (des : List DirEntry) (offset : Int) (cap : Nat)
    (hdes : List.lookup ino fs.dir_listing = some des)
    (hlen : des.length < 2 ^ 63)
    (hneg : offset < 0) (hlo : -(2 ^ 63) ≤ offset) :
    JsonFS.readdir fs ino offset cap = .ok [] := by
  have hmod : offset % ((2 : Int) ^ 64) = offset + 2 ^ 64 := by omega
  have htn : (2 : Nat) ^ 63 ≤ usizeOfI64 offset := by
    unfold usizeOfI64
    rw [hmod]
    omega
  have hdrop : des.drop (usizeOfI64 offset) = [] :=
    List.drop_eq_nil_of_le (by omega)
  have hi64 : i64OfUsize des.length = some (Int.ofNat des.length) := by
    unfold i64OfUsize
    rw [if_pos hlen]
  have hlt : offset < Int.ofNat des.length := by
    have : (0 : Int) ≤ Int.ofNat des.length := Int.ofNat_nonneg _
    omega
  simp [JsonFS.readdir, hdes, hi64, hlt, hdrop]

/-- C10 witness: the negative-offset behaviour on the concrete three-entry
listing fixture. -/
theorem readdir_negative_offset_empty_witness :
    JsonFS.readdir fsListing 1 (-5) 10 = .ok [] :=
  readdir_negative_offset_empty fsListing 1 listing3 (-5) 10 rfl
    (by norm_num [listing3]) (by norm_num) (by norm_num)

/-- Lookup over the shifted enumeration of a list: key `i` is bound exactly
when `n + 1 ≤ i`, to the element at position `i - (n + 1)`. -/
lemma lookup_enumFrom_map {α : Type} (l : List α) (n i : Nat) :
    List.lookup i ((List.enumFrom n l).map (fun p => (p.1 + 1, p.2))) =
      if n + 1 ≤ i then l.get? (i - (n + 1)) else none := by
  induction l generalizing n with
  | nil => simp [List.lookup]
  | cons a as ih =>
    simp only [List.enumFrom, List.map, List.lookup]
    by_cases hc : i = n + 1
    · subst hc
      simp
    · have hbeq : (i == n + 1) = false := by simpa using hc
      rw [hbeq]
      rw [ih (n + 1)]
      by_cases h1 : n + 2 ≤ i
      · have h2 : n + 1 ≤ i := by omega
        rw [if_pos h1, if_pos h2]
        have h3 : i - (n + 1) = (i - (n + 2)) + 1 := by omega
        rw [h3]
        simp [List.get?]
      · by_cases h2 : n + 1 ≤ i
        · omega
        · rw [if_neg h1, if_neg h2]

/-- A position query on a list succeeds exactly within its length. -/
lemma get?_isSome_iff {α : Type} (l : List α) (n : Nat) :
    (l.get? n).isSome ↔ n < l.length := by
  constructor
  · intro hs
    by_contra hc
    rw [List.get?_eq_none.mpr (by omega)] at hs
    simp at hs
  · intro hlt
    rw [List.get?_eq_get hlt]
    simp

/-- C5: for every manifest accepted by tree construction, the pre-order
flattening of the resulting tree puts the root itself first, and the
generated inode map binds exactly the identities 1..N, where N is the
flattened node count: a lookup succeeds precisely for identities in that
range, and identity i is bound to the node at position i - 1 of the
flattening — so every flattened node is returned by looking up its
assigned identity, and the root has identity 1. -/
theorem generate_inode_map_spec (j : JsonValue) (e : FSEntry)
    (hok : FSEntry.new j = .ok e) :
    e.flatten.head? = some e ∧
    (∀ i : Nat, (List.lookup i e.generate_inode_map).isSome ↔
      1 ≤ i ∧ i ≤ e.flatten.length) ∧
    (∀ i : Nat, 1 ≤ i →
      List.lookup i e.generate_inode_map = e.flatten.get? (i - 1)) := by
  have hmap : ∀ i : Nat, List.lookup i e.generate_inode_map =
      if 1 ≤ i then e.flatten.get? (i - 1) else none := by
    intro i
    have h0 : e.generate_inode_map =
        (List.enumFrom 0 e.flatten).map (fun p => (p.1 + 1, p.2)) := rfl
    rw [h0, lookup_enumFrom_map]
  refine ⟨?_, ?_, ?_⟩
  · cases e <;> rfl
  · intro i
    rw [hmap i]
    by_cases h1 : 1 ≤ i
    · rw [if_pos h1, get?_isSome_iff]
      omega
    · rw [if_neg h1]
      simp
      omega
  · intro i h1
    rw [hmap i, if_pos h1]

/-- C5 witness: a two-node manifest, its constructed tree, and the
properties of its inode map at the concrete instance. -/
theorem generate_inode_map_spec_witness :
    List.lookup 1 (FSEntry.generate_inode_map
      (FSEntry.Dir [] [FSEntry.File "a.txt".toList (.Raw "abc".toList)])) =
    (FSEntry.flatten
      (FSEntry.Dir [] [FSEntry.File "a.txt".toList (.Raw "abc".toList)])).get? 0 :=
  (generate_inode_map_spec (.obj [("a.txt".toList, .str "raw:abc".toList)])
    (FSEntry.Dir [] [FSEntry.File "a.txt".toList (.Raw "abc".toList)])
    (by simp [FSEntry.new, FSEntry._new, FSEntry.create_directory,
      FSEntry.collectEntries, create_file, findColon, parse_file_type])).2.2
    1 (by omega)

/-- A file-descriptor string is malformed when it has no colon or when the
prefix before its first colon is not a recognized type prefix. -/
def badDescriptor (s : List Char) : Bool :=
  match findColon s with
  | none => true
  | some i => !(s.take i == "raw".toList || s.take i == "file".toList)

mutual

/-- A manifest value contains a malformed entry when some string value in
it is a malformed descriptor or some value is neither object nor string. -/
def containsMalformed : JsonValue → Bool
  | .str s => badDescriptor s
  | .other => true
  | .obj m => containsMalformedList m

/-- Member-list form of `containsMalformed`: some member value contains a
malformed entry. -/
def containsMalformedList : List (List Char × JsonValue) → Bool
  | [] => false
  | (_, v) :: rest => containsMalformed v || containsMalformedList rest

end

/-- A malformed descriptor string makes `create_file` fail. -/
lemma create_file_of_badDescriptor (name s : List Char)
    (h : badDescriptor s = true) : create_file name s = .error .mk := by
  unfold badDescriptor at h
  cases hc : findColon s with
  | none => simp [create_file, hc]
  | some i =>
    rw [hc] at h
    simp only [Bool.not_eq_true', Bool.or_eq_false_iff, beq_eq_false_iff_ne,
      ne_eq] at h
    exact create_file_error_of_prefixes name s i hc h.1 h.2

mutual

/-- Propagation of a malformed value through `FSEntry::_new`: construction
of the whole (sub)tree fails with `DescriptorError`. -/
def FSEntry._new_malformed (name : List Char) (j : JsonValue)
    (h : containsMalformed j = true) :
    FSEntry._new name j = .error .mk :=
  match j with
  | .str s => by
    simp only [containsMalformed] at h
    simp [FSEntry._new, create_file_of_badDescriptor name s h]
  | .other => by simp [FSEntry._new]
  | .obj m => by
    simp only [containsMalformed] at h
    have h2 := FSEntry.collectEntries_malformed m h
    simp [FSEntry._new, FSEntry.create_directory, h2]

/-- Propagation of a malformed member through the child collection of
`create_directory`. -/
def FSEntry.collectEntries_malformed (m : List (List Char × JsonValue))
    (h : containsMalformedList m = true) :
    FSEntry.collectEntries m = .error .mk :=
  match m with
  | [] => by simp [containsMalformedList] at h
  | (k, v) :: rest => by
    simp only [containsMalformedList, Bool.or_eq_true] at h
    rcases h with h | h
    · have h1 := FSEntry._new_malformed k v h
      simp [FSEntry.collectEntries, h1]
    · have h2 := FSEntry.collectEntries_malformed rest h
      cases hv : FSEntry._new k v with
      | error e =>
        cases e
        simp [FSEntry.collectEntries, hv]
      | ok e =>
        simp [FSEntry.collectEntries, hv, h2]

end

/-- C9: every manifest containing a malformed entry — a descriptor string
without a colon, a descriptor whose type prefix is unrecognized, or a
value that is neither an object nor a string — makes tree construction
fail as a whole: `FSEntry::new` returns `DescriptorError`, so no tree, and
hence no identity index or directory listing, is produced. -/
theorem malformed_manifest_construction_fails (j : JsonValue)
    (h : containsMalformed j = true) :
    FSEntry.new j = .error .mk :=
  FSEntry._new_malformed [] j h

/-- C9 witness: the scenario manifest with the descriptor "unknown:xyz". -/
theorem malformed_manifest_construction_fails_witness :
    FSEntry.new (.obj [("bad.txt".toList, .str "unknown:xyz".toList)]) =
      .error .mk :=
  malformed_manifest_construction_fails
    (.obj [("bad.txt".toList, .str "unknown:xyz".toList)])
    (by simp [containsMalformed, containsMalformedList, badDescriptor,
      findColon])

/-- The name stored in a child listing entry is the name of the child. -/
lemma childEntry_name (c : FSNode) : (childEntry c).2.2 = c.name := by
  cases c with
  | mk i nm en => cases en <;> simp [childEntry, FSNode.name]

/-- A node is an element of its own flattening, paired with the parent the
flattening was started with. -/
lemma self_mem_flattenWP (p : Option Nat) (n : FSNode) :
    (n, p) ∈ FSNode.flattenWP p n := by
  cases n with
  | mk i nm en =>
    cases en with
    | File ft => simp [FSNode.flattenWP]
    | Dir es => simp [FSNode.flattenWP]

/-- Everything in the flattening of one child is in the flattening of the
whole child list. -/
lemma mem_flattenWPList_of_mem (pi : Nat) (es : List FSNode) (e : FSNode)
    (he : e ∈ es) (x : FSNode × Option Nat)
    (hx : x ∈ FSNode.flattenWP (some pi) e) :
    x ∈ FSNode.flattenWPList pi es := by
  induction es with
  | nil => cases he
  | cons a rest ih =>
    simp only [FSNode.flattenWPList]
    rcases List.mem_cons.mp he with h | h
    · subst h
      exact List.mem_append_left _ hx
    · exact List.mem_append_right _ (ih h)

mutual

/-- If a directory node occurs in a flattening, each of its children occurs
in the same flattening paired with that directory as parent. -/
def mem_child_flattenWP (p0 : Option Nat) (root : FSNode) (o : FSNode)
    (po : Option Nat) (os : List FSNode) (d : FSNode)
    (ho : (o, po) ∈ FSNode.flattenWP p0 root) (hos : o.entry = .Dir os)
    (hd : d ∈ os) : (d, some o.inode) ∈ FSNode.flattenWP p0 root :=
  match root with
  | .mk i nm (.File ft) => by
    simp only [FSNode.flattenWP, List.mem_singleton, Prod.mk.injEq] at ho
    rw [ho.1] at hos
    simp [FSNode.entry] at hos
  | .mk i nm (.Dir es) => by
    simp only [FSNode.flattenWP, List.mem_cons] at ho
    rcases ho with ho | ho
    · have hoeq : o = FSNode.mk i nm (.Dir es) := congrArg Prod.fst ho
      subst hoeq
      simp only [FSNode.entry, FSNodeEntry.Dir.injEq] at hos
      simp only [FSNode.flattenWP, List.mem_cons, FSNode.inode]
      right
      exact mem_flattenWPList_of_mem i es d (by rw [hos]; exact hd)
        (d, some i) (self_mem_flattenWP (some i) d)
    · simp only [FSNode.flattenWP, List.mem_cons]
      right
      exact mem_child_flattenWPList i es o po os d ho hos hd

/-- Child-list form of `mem_child_flattenWP`. -/
def mem_child_flattenWPList (pi : Nat) (es : List FSNode) (o : FSNode)
    (po : Option Nat) (os : List FSNode) (d : FSNode)
    (ho : (o, po) ∈ FSNode.flattenWPList pi es) (hos : o.entry = .Dir os)
    (hd : d ∈ os) : (d, some o.inode) ∈ FSNode.flattenWPList pi es :=
  match es with
  | [] => by simp [FSNode.flattenWPList] at ho
  | e :: rest => by
    simp only [FSNode.flattenWPList, List.mem_append] at ho
    simp only [FSNode.flattenWPList, List.mem_append]
    rcases ho with ho | ho
    · exact Or.inl (mem_child_flattenWP (some pi) e o po os d ho hos hd)
    · exact Or.inr (mem_child_flattenWPList pi rest o po os d ho hos hd)

end

/-- Every directory node occurring in a node list yields, in the generated
listing cache, the listing made of its self entry, its parent entry when a
parent exists, and its children in order. -/
lemma mem_generate_dir_listing (nodes : List (FSNode × Option Nat))
    (d : FSNode) (p : Option Nat) (es : List FSNode)
    (hmem : (d, p) ∈ nodes) (hdir : d.entry = .Dir es) :
    (d.inode, (d.inode, FileKind.Directory, ".".toList) ::
      (parentEntry p ++ es.map childEntry)) ∈ generate_dir_listing nodes := by
  apply List.mem_filterMap.mpr
  refine ⟨(d, p), hmem, ?_⟩
  rcases d with ⟨i, nm, en⟩
  cases en with
  | File ft => simp [FSNode.entry] at hdir
  | Dir es2 =>
    simp only [FSNode.entry, FSNodeEntry.Dir.injEq] at hdir
    subst hdir
    rfl

/-- C7: in the listing cache generated from the flattened tree, (1) every
directory node owns the listing made of its `.` self entry (own inode,
directory kind), its parent entry when a parent exists, and its children
in child-list order, each child carrying its inode, kind tag, and name;
(2) for a directory child of a directory, the `..` entry of the child
listing carries exactly the inode of the directory whose child list
contains it; (3) the root listing has no `..` entry, only the self entry
followed by the children; (4) when no child is named `.` or `..`, the
listing contains exactly one `.` entry, no `..` entry for the root, and
exactly one `..` entry otherwise. -/
theorem generate_dir_listing_spec (root : FSNode) :
    (∀ d p es, (d, p) ∈ FSNode.flattenWP none root → d.entry = .Dir es →
      (d.inode, (d.inode, FileKind.Directory, ".".toList) ::
        (parentEntry p ++ es.map childEntry)) ∈
        generate_dir_listing (FSNode.flattenWP none root)) ∧
    (∀ o po os, (o, po) ∈ FSNode.flattenWP none root → o.entry = .Dir os →
      ∀ d, d ∈ os → ∀ es2, d.entry = .Dir es2 →
      (d.inode, (d.inode, FileKind.Directory, ".".toList) ::
        ((o.inode, FileKind.Directory, "..".toList) :: es2.map childEntry)) ∈
        generate_dir_listing (FSNode.flattenWP none root)) ∧
    (∀ es, root.entry = .Dir es →
      (root.inode, (root.inode, FileKind.Directory, ".".toList) ::
        es.map childEntry) ∈ generate_dir_listing (FSNode.flattenWP none root)) ∧
    (∀ d p es, (d, p) ∈ FSNode.flattenWP none root → d.entry = .Dir es →
      (∀ c, c ∈ es → c.name ≠ ".".toList ∧ c.name ≠ "..".toList) →
      ((d.inode, FileKind.Directory, ".".toList) ::
        (parentEntry p ++ es.map childEntry)).countP
          (fun en => en.2.2 == ".".toList) = 1 ∧
      (p = none → ((d.inode, FileKind.Directory, ".".toList) ::
        (parentEntry p ++ es.map childEntry)).countP
          (fun en => en.2.2 == "..".toList) = 0) ∧
      (∀ q, p = some q → ((d.inode, FileKind.Directory, ".".toList) ::
        (parentEntry p ++ es.map childEntry)).countP
          (fun en => en.2.2 == "..".toList) = 1)) := by
  have hchild0 : ∀ (es : List FSNode) (s : List Char),
      (∀ c, c ∈ es → c.name ≠ s) →
      (es.map childEntry).countP (fun en => en.2.2 == s) = 0 := by
    intro es s hs
    apply List.countP_eq_zero.mpr
    intro a ha
    rcases List.mem_map.mp ha with ⟨c, hc, rfl⟩
    simp [childEntry_name, hs c hc]
  refine ⟨?_, ?_, ?_, ?_⟩
  · intro d p es hmem hdir
    exact mem_generate_dir_listing _ d p es hmem hdir
  · intro o po os ho hos d hd es2 hd2
    have hm := mem_child_flattenWP none root o po os d ho hos hd
    exact mem_generate_dir_listing _ d (some o.inode) es2 hm hd2
  · intro es hroot
    have hm := self_mem_flattenWP none root
    have h1 := mem_generate_dir_listing _ root none es hm hroot
    simpa [parentEntry] using h1
  · intro d p es hmem hdir hnames
    have h1 := hchild0 es ".".toList (fun c hc => (hnames c hc).1)
    have h2 := hchild0 es "..".toList (fun c hc => (hnames c hc).2)
    have hn1 : ∀ a ∈ es, ¬(childEntry a).2.2 = ['.'] := by
      intro a ha
      rw [childEntry_name]
      simpa using (hnames a ha).1
    have hn2 : ∀ a ∈ es, ¬(childEntry a).2.2 = ['.', '.'] := by
      intro a ha
      rw [childEntry_name]
      simpa using (hnames a ha).2
    refine ⟨?_, ?_, ?_⟩
    · cases p with
      | none =>
        simp only [parentEntry, List.nil_append, List.countP_cons]
        simp
        exact hn1
      | some q =>
        simp only [parentEntry, List.singleton_append, List.countP_cons]
        simp
        exact hn1
    · intro hp
      subst hp
      simp only [parentEntry, List.nil_append, List.countP_cons]
      simp
      exact hn2
    · intro q hp
      subst hp
      simp only [parentEntry, List.singleton_append, List.countP_cons]
      simp
      exact hn2

/-- A three-node tree fixture: root directory (inode 1) owning a
subdirectory "sub" (inode 2) owning a file "f" (inode 3). -/
def root3 : FSNode :=
  FSNode.mk 1 [] (.Dir [FSNode.mk 2 "sub".toList
    (.Dir [FSNode.mk 3 "f".toList (.File failingBackend)])])

/-- C7 witness: in the cache generated for `root3`, the subdirectory
listing is the self entry, the `..` entry carrying the root inode 1, and
the file child. -/
theorem generate_dir_listing_spec_witness :
    ((2 : Nat), [((2 : Nat), FileKind.Directory, ".".toList),
      (1, FileKind.Directory, "..".toList),
      (3, FileKind.RegularFile, "f".toList)]) ∈
      generate_dir_listing (FSNode.flattenWP none root3) :=
  (generate_dir_listing_spec root3).2.1 root3 none
    [FSNode.mk 2 "sub".toList (.Dir [FSNode.mk 3 "f".toList (.File failingBackend)])]
    (self_mem_flattenWP none root3) rfl
    (FSNode.mk 2 "sub".toList (.Dir [FSNode.mk 3 "f".toList (.File failingBackend)]))
    (List.mem_singleton.mpr rfl)
    [FSNode.mk 3 "f".toList (.File failingBackend)] rfl

end JsonFuseFS
